import Mathlib

/-!
Shallow embedding of the `ficapi` repository (riceball-k/ficapi).

The embedding covers the parts of the code that the verified properties are
about:

* `src/ficapi/mycipher.py` — the `MyCipher` class: password-derived secret,
  AES-EAX encryption/decryption of UTF-8 text rendered as lowercase hex.
  The external cryptographic primitives (`hashlib.sha256`, `hashlib.md5`,
  and pycryptodome's AES-EAX keystream) are modelled as abstract byte
  functions bundled in `CryptoPrims`; everything the repository's own code
  does (UTF-8 encoding, hex rendering, XOR with the keystream, the error
  taxonomy) is modelled concretely.
* `src/ficapi/playbook.py` — `PlaybookParameter` (construction check and the
  `replace` substitution loops) and `Playbook.exec`.
* `src/ficapi/fictoken.py` — `FicToken.update`.

Python's unbounded `while` loops are embedded with an explicit fuel
parameter: a result of `none` means that no amount of fuel suffices, i.e.
the source loop does not terminate.
-/

/-! ### Bytes, hex rendering (`bytes.hex`) and hex parsing (`binascii.a2b_hex`) -/

/-- Lowercase hex digit for a nibble, as produced by Python's `bytes.hex()`. -/
def hexDigitChar (n : Nat) : Char :=
  match n with
  | 0 => '0' | 1 => '1' | 2 => '2' | 3 => '3' | 4 => '4'
  | 5 => '5' | 6 => '6' | 7 => '7' | 8 => '8' | 9 => '9'
  | 10 => 'a' | 11 => 'b' | 12 => 'c' | 13 => 'd' | 14 => 'e' | 15 => 'f'
  | _ => '0'

/-- `bytes.hex()`: render a byte list as lowercase hexadecimal characters. -/
def hexEncode (bs : List Nat) : List Char :=
  bs.flatMap (fun b => [hexDigitChar (b / 16), hexDigitChar (b % 16)])

/-- Value of one hex digit as accepted by `binascii.a2b_hex`
(both lowercase and uppercase); `none` for a non-hex character. -/
def hexDigitVal (c : Char) : Option Nat :=
  if '0' ≤ c ∧ c ≤ '9' then some (c.toNat - 48)
  else if 'a' ≤ c ∧ c ≤ 'f' then some (c.toNat - 87)
  else if 'A' ≤ c ∧ c ≤ 'F' then some (c.toNat - 55)
  else none

/-- `binascii.a2b_hex`: parse hex characters into bytes; fails (`none`,
modelling `binascii.Error`) on an odd-length input or a non-hex digit. -/
def hexDecode : List Char → Option (List Nat)
  | [] => some []
  | [_] => none
  | c1 :: c2 :: rest =>
    match hexDigitVal c1, hexDigitVal c2, hexDecode rest with
    | some h, some l, some bs => some ((h * 16 + l) :: bs)
    | _, _, _ => none

theorem hexDigitVal_hexDigitChar (n : Nat) (h : n < 16) :
    hexDigitVal (hexDigitChar n) = some n := by
  interval_cases n <;> rfl

theorem hexDecode_hexEncode (bs : List Nat) (h : ∀ b ∈ bs, b < 256) :
    hexDecode (hexEncode bs) = some bs := by
  induction bs with
  | nil => rfl
  | cons b rest ih =>
    have hb : b < 256 := h b (List.mem_cons_self ..)
    have hrest : hexDecode (hexEncode rest) = some rest :=
      ih (fun x hx => h x (List.mem_cons_of_mem _ hx))
    have hhi : b / 16 < 16 := by omega
    have hlo : b % 16 < 16 := by omega
    simp only [hexEncode, List.flatMap_cons, List.cons_append, List.nil_append]
    simp only [hexEncode] at hrest
    simp only [hexDecode, hexDigitVal_hexDigitChar _ hhi, hexDigitVal_hexDigitChar _ hlo, hrest]
    have hbe : b / 16 * 16 + b % 16 = b := by omega
    rw [hbe]

/-! ### UTF-8 codec (`str.encode('utf-8')` / `bytes.decode('utf-8')`) -/

theorem char_toNat_ofNat (n : Nat) (h : Nat.isValidChar n) : (Char.ofNat n).toNat = n := by
  unfold Char.ofNat
  rw [dif_pos h]
  unfold Char.ofNatAux Char.toNat
  simp [UInt32.toNat]

theorem char_ofNat_toNat (c : Char) : Char.ofNat c.toNat = c := by
  have h : Nat.isValidChar c.toNat := by
    have := c.valid
    unfold UInt32.isValidChar at this
    exact this
  exact Char.ext (UInt32.ext (char_toNat_ofNat c.toNat h))

theorem char_valid_arith (c : Char) :
    c.toNat < 0xD800 ∨ (0xDFFF < c.toNat ∧ c.toNat < 0x110000) := by
  have := c.valid
  unfold UInt32.isValidChar Nat.isValidChar at this
  exact this

/-- UTF-8 encoding of one Unicode scalar value. -/
def utf8EncodeChar (c : Char) : List Nat :=
  if c.toNat < 0x80 then [c.toNat]
  else if c.toNat < 0x800 then [0xC0 + c.toNat / 0x40, 0x80 + c.toNat % 0x40]
  else if c.toNat < 0x10000 then
    [0xE0 + c.toNat / 0x1000, 0x80 + c.toNat / 0x40 % 0x40, 0x80 + c.toNat % 0x40]
  else
    [0xF0 + c.toNat / 0x40000, 0x80 + c.toNat / 0x1000 % 0x40,
     0x80 + c.toNat / 0x40 % 0x40, 0x80 + c.toNat % 0x40]

/-- `str.encode('utf-8')`. -/
def utf8Encode (s : String) : List Nat :=
  s.data.flatMap utf8EncodeChar

/-- One step of strict UTF-8 decoding, as performed by Python's
`bytes.decode('utf-8')`: given the first byte and the remaining bytes,
return the decoded code point and the bytes after the sequence; `none` on
continuation-byte errors, overlong forms, surrogates and values above
`0x10FFFF`. -/
def utf8Step (b0 : Nat) (bs : List Nat) : Option (Nat × List Nat) :=
  if b0 < 0x80 then some (b0, bs)
  else if b0 < 0xC2 then none
  else if b0 < 0xE0 then
    match bs with
    | b1 :: bs1 =>
      if 0x80 ≤ b1 ∧ b1 < 0xC0 then some ((b0 - 0xC0) * 0x40 + (b1 - 0x80), bs1) else none
    | [] => none
  else if b0 < 0xF0 then
    match bs with
    | b1 :: b2 :: bs2 =>
      if (0x80 ≤ b1 ∧ b1 < 0xC0) ∧ (0x80 ≤ b2 ∧ b2 < 0xC0) ∧
          ¬(b0 = 0xE0 ∧ b1 < 0xA0) ∧ ¬(b0 = 0xED ∧ 0xA0 ≤ b1) then
        some ((b0 - 0xE0) * 0x1000 + (b1 - 0x80) * 0x40 + (b2 - 0x80), bs2)
      else none
    | _ => none
  else if b0 < 0xF5 then
    match bs with
    | b1 :: b2 :: b3 :: bs3 =>
      if (0x80 ≤ b1 ∧ b1 < 0xC0) ∧ (0x80 ≤ b2 ∧ b2 < 0xC0) ∧ (0x80 ≤ b3 ∧ b3 < 0xC0) ∧
          ¬(b0 = 0xF0 ∧ b1 < 0x90) ∧ ¬(b0 = 0xF4 ∧ 0x90 ≤ b1) then
        some ((b0 - 0xF0) * 0x40000 + (b1 - 0x80) * 0x1000 + (b2 - 0x80) * 0x40 + (b3 - 0x80), bs3)
      else none
    | _ => none
  else none

set_option maxRecDepth 4000 in
theorem utf8Step_length (b0 : Nat) (bs : List Nat) (p : Nat × List Nat)
    (h : utf8Step b0 bs = some p) : p.2.length ≤ bs.length := by
  unfold utf8Step at h
  split at h
  · cases h; simp
  · split at h
    · simp at h
    · split at h
      · split at h
        · split at h
          · cases h; simp
          · simp at h
        · simp at h
      · split at h
        · split at h
          · split at h
            · cases h; simp; omega
            · simp at h
          · simp at h
        · split at h
          · split at h
            · split at h
              · cases h; simp; omega
              · simp at h
            · simp at h
          · simp at h

/-- Strict UTF-8 decoding of a whole byte list into code points;
`none` models `UnicodeDecodeError`. -/
def utf8DecodeAux (l : List Nat) : Option (List Char) :=
  match l with
  | [] => some []
  | b0 :: bs =>
    match _h : utf8Step b0 bs with
    | some p => (utf8DecodeAux p.2).map (fun cs => Char.ofNat p.1 :: cs)
    | none => none
termination_by l.length
decreasing_by
  have := utf8Step_length b0 bs p _h
  simp only [List.length_cons]
  omega

/-- `bytes.decode('utf-8')`, producing a string. -/
def utf8Decode (bs : List Nat) : Option String :=
  (utf8DecodeAux bs).map String.mk

theorem utf8DecodeAux_cons (b0 : Nat) (bs : List Nat) :
    utf8DecodeAux (b0 :: bs) =
      match utf8Step b0 bs with
      | some p => (utf8DecodeAux p.2).map (fun cs => Char.ofNat p.1 :: cs)
      | none => none := by
  conv_lhs => rw [utf8DecodeAux.eq_def]
  dsimp only []
  cases hs : utf8Step b0 bs with
  | none => simp only [hs]
  | some p => simp only [hs]

theorem utf8Step_ascii (b0 : Nat) (bs : List Nat) (h : b0 < 0x80) :
    utf8Step b0 bs = some (b0, bs) := by
  unfold utf8Step
  rw [if_pos h]

theorem utf8Step_two (b0 b1 : Nat) (bs : List Nat) (h1 : ¬ b0 < 0x80) (h2 : ¬ b0 < 0xC2)
    (h3 : b0 < 0xE0) (h4 : 0x80 ≤ b1 ∧ b1 < 0xC0) :
    utf8Step b0 (b1 :: bs) = some ((b0 - 0xC0) * 0x40 + (b1 - 0x80), bs) := by
  unfold utf8Step
  rw [if_neg h1, if_neg h2, if_pos h3]
  dsimp only []
  rw [if_pos h4]

theorem utf8Step_three (b0 b1 b2 : Nat) (bs : List Nat) (h1 : ¬ b0 < 0x80)
    (h2 : ¬ b0 < 0xC2) (h3 : ¬ b0 < 0xE0) (h4 : b0 < 0xF0)
    (h5 : (0x80 ≤ b1 ∧ b1 < 0xC0) ∧ (0x80 ≤ b2 ∧ b2 < 0xC0) ∧
      ¬(b0 = 0xE0 ∧ b1 < 0xA0) ∧ ¬(b0 = 0xED ∧ 0xA0 ≤ b1)) :
    utf8Step b0 (b1 :: b2 :: bs) =
      some ((b0 - 0xE0) * 0x1000 + (b1 - 0x80) * 0x40 + (b2 - 0x80), bs) := by
  unfold utf8Step
  rw [if_neg h1, if_neg h2, if_neg h3, if_pos h4]
  dsimp only []
  rw [if_pos h5]

theorem utf8Step_four (b0 b1 b2 b3 : Nat) (bs : List Nat) (h1 : ¬ b0 < 0x80)
    (h2 : ¬ b0 < 0xC2) (h3 : ¬ b0 < 0xE0) (h4 : ¬ b0 < 0xF0) (h4a : b0 < 0xF5)
    (h5 : (0x80 ≤ b1 ∧ b1 < 0xC0) ∧ (0x80 ≤ b2 ∧ b2 < 0xC0) ∧ (0x80 ≤ b3 ∧ b3 < 0xC0) ∧
      ¬(b0 = 0xF0 ∧ b1 < 0x90) ∧ ¬(b0 = 0xF4 ∧ 0x90 ≤ b1)) :
    utf8Step b0 (b1 :: b2 :: b3 :: bs) =
      some ((b0 - 0xF0) * 0x40000 + (b1 - 0x80) * 0x1000 + (b2 - 0x80) * 0x40 + (b3 - 0x80), bs) := by
  unfold utf8Step
  rw [if_neg h1, if_neg h2, if_neg h3, if_neg h4, if_pos h4a]
  dsimp only []
  rw [if_pos h5]

theorem utf8EncodeChar_lt_256 (c : Char) : ∀ b ∈ utf8EncodeChar c, b < 256 := by
  intro b hb
  have hv := char_valid_arith c
  unfold utf8EncodeChar at hb
  split at hb
  · simp at hb; omega
  · split at hb
    · simp at hb; rcases hb with h | h <;> omega
    · split at hb
      · simp at hb; rcases hb with h | h | h <;> omega
      · simp at hb; rcases hb with h | h | h | h <;> omega

theorem utf8DecodeAux_encodeChar (c : Char) (rest : List Nat) :
    utf8DecodeAux (utf8EncodeChar c ++ rest) = (utf8DecodeAux rest).map (fun cs => c :: cs) := by
  have hv := char_valid_arith c
  unfold utf8EncodeChar
  by_cases h1 : c.toNat < 0x80
  · rw [if_pos h1]
    simp only [List.cons_append, List.nil_append]
    rw [utf8DecodeAux_cons, utf8Step_ascii _ _ h1]
    dsimp only []
    rw [char_ofNat_toNat]
  · rw [if_neg h1]
    by_cases h2 : c.toNat < 0x800
    · rw [if_pos h2]
      simp only [List.cons_append, List.nil_append]
      rw [utf8DecodeAux_cons,
        utf8Step_two _ _ _ (by omega) (by omega) (by omega) ⟨by omega, by omega⟩]
      dsimp only []
      have he : (0xC0 + c.toNat / 0x40 - 0xC0) * 0x40 + (0x80 + c.toNat % 0x40 - 0x80)
          = c.toNat := by omega
      rw [he, char_ofNat_toNat]
    · rw [if_neg h2]
      by_cases h3 : c.toNat < 0x10000
      · rw [if_pos h3]
        simp only [List.cons_append, List.nil_append]
        rw [utf8DecodeAux_cons,
          utf8Step_three _ _ _ _ (by omega) (by omega) (by omega) (by omega)
            ⟨⟨by omega, by omega⟩, ⟨by omega, by omega⟩,
             by rintro ⟨hb0, hb1⟩; omega, by rintro ⟨hb0, hb1⟩; omega⟩]
        dsimp only []
        have he : (0xE0 + c.toNat / 0x1000 - 0xE0) * 0x1000 +
            (0x80 + c.toNat / 0x40 % 0x40 - 0x80) * 0x40 + (0x80 + c.toNat % 0x40 - 0x80)
            = c.toNat := by omega
        rw [he, char_ofNat_toNat]
      · rw [if_neg h3]
        simp only [List.cons_append, List.nil_append]
        rw [utf8DecodeAux_cons,
          utf8Step_four _ _ _ _ _ (by omega) (by omega) (by omega) (by omega) (by omega)
            ⟨⟨by omega, by omega⟩, ⟨by omega, by omega⟩, ⟨by omega, by omega⟩,
             by rintro ⟨hb0, hb1⟩; omega, by rintro ⟨hb0, hb1⟩; omega⟩]
        dsimp only []
        have he : (0xF0 + c.toNat / 0x40000 - 0xF0) * 0x40000 +
            (0x80 + c.toNat / 0x1000 % 0x40 - 0x80) * 0x1000 +
            (0x80 + c.toNat / 0x40 % 0x40 - 0x80) * 0x40 + (0x80 + c.toNat % 0x40 - 0x80)
            = c.toNat := by omega
        rw [he, char_ofNat_toNat]

theorem utf8DecodeAux_utf8Encode (cs : List Char) :
    utf8DecodeAux (cs.flatMap utf8EncodeChar) = some cs := by
  induction cs with
  | nil =>
    rw [List.flatMap_nil, utf8DecodeAux.eq_def]
  | cons c rest ih =>
    rw [List.flatMap_cons, utf8DecodeAux_encodeChar, ih]
    rfl

theorem utf8Decode_utf8Encode (s : String) : utf8Decode (utf8Encode s) = some s := by
  unfold utf8Decode utf8Encode
  rw [utf8DecodeAux_utf8Encode]
  rfl

/-! ### `mycipher.py`: the `MyCipher` class

External primitives (`hashlib.sha256`, `hashlib.md5`, and the AES-EAX
keystream of pycryptodome) are abstract parameters. pycryptodome's
`EaxMode.encrypt`/`EaxMode.decrypt` (no `digest`/`verify` call appears in the
source) are CTR-mode stream operations: both XOR the data with a keystream
determined by the key and the nonce, consuming it from the object's current
stream position. -/

/-- External cryptographic primitives used by `mycipher.py`. -/
structure CryptoPrims where
  sha256 : List Nat → List Nat
  md5 : List Nat → List Nat
  aesKeystream : List Nat → List Nat → Nat → Nat

/-- Errors that `MyCipher.decrypt`/`encrypt` can raise. `binasciiError`
models `binascii.Error` (a `ValueError`), which is a distinct class from the
module's own `DecryptionError` and `PasswordNotSet` exceptions. -/
inductive CipherErr
  | passwordNotSet
  | decryptionError
  | binasciiError
  deriving DecidableEq

/-- XOR the data with the keystream bytes starting at stream position `i`. -/
def xorKeystream (ks : Nat → Nat) : Nat → List Nat → List Nat
  | _, [] => []
  | i, b :: bs => (b ^^^ ks i % 256) :: xorKeystream ks (i + 1) bs

/-- `MyCipher`: holds the SHA-256 hash of the password (`self.secret`),
or `None` when constructed without a password. -/
structure MyCipher where
  secret : Option (List Nat)

/-- `MyCipher.__init__` / `setsecret`: `self.secret = sha256(password)`
(UTF-8 bytes of the password string); `None` stays `None`. -/
def MyCipher.init (P : CryptoPrims) (password : Option String) : MyCipher :=
  ⟨password.map (fun pw => P.sha256 (utf8Encode pw))⟩

/-- State of a pycryptodome EAX cipher object: key, nonce, and the CTR
stream position (0 for a freshly constructed object). -/
structure EaxState where
  key : List Nat
  nonce : List Nat
  pos : Nat

/-- The `_cipher` property:
`AES.new(self.sha256(self.secret), AES.MODE_EAX, self.md5(self.secret))`,
raising `PasswordNotSet` when `self.secret is None`.  Each access builds a
fresh cipher object, so the stream position is 0. -/
def MyCipher.cipherObj (P : CryptoPrims) (c : MyCipher) : Except CipherErr EaxState :=
  match c.secret with
  | none => .error .passwordNotSet
  | some s => .ok ⟨P.sha256 s, P.md5 s, 0⟩

/-- `EaxMode.encrypt`: XOR with the keystream from the current position and
advance the position. -/
def EaxState.encryptBytes (P : CryptoPrims) (st : EaxState) (data : List Nat) :
    List Nat × EaxState :=
  (xorKeystream (P.aesKeystream st.key st.nonce) st.pos data,
   ⟨st.key, st.nonce, st.pos + data.length⟩)

/-- `EaxMode.decrypt`: in CTR mode, identical to encryption. -/
def EaxState.decryptBytes (P : CryptoPrims) (st : EaxState) (data : List Nat) :
    List Nat × EaxState :=
  st.encryptBytes P data

/-- `MyCipher.encrypt`: `self._cipher.encrypt(text.encode('utf-8')).hex()`. -/
def MyCipher.encrypt (P : CryptoPrims) (c : MyCipher) (text : String) :
    Except CipherErr String :=
  match c.cipherObj P with
  | .error e => .error e
  | .ok st => .ok (String.mk (hexEncode (st.encryptBytes P (utf8Encode text)).1))

/-- `MyCipher.decrypt`:
`self._cipher.decrypt(binascii.a2b_hex(text)).decode('utf-8')`, with
`PasswordNotSet` re-raised, `UnicodeDecodeError` turned into
`DecryptionError`, and `binascii.Error` (not caught by the source) escaping
as itself. -/
def MyCipher.decrypt (P : CryptoPrims) (c : MyCipher) (text : String) :
    Except CipherErr String :=
  match c.cipherObj P with
  | .error e => .error e
  | .ok st =>
    match hexDecode text.data with
    | none => .error .binasciiError
    | some bs =>
      match utf8Decode (st.decryptBytes P bs).1 with
      | none => .error .decryptionError
      | some s => .ok s

theorem xorKeystream_involutive (ks : Nat → Nat) (bs : List Nat) :
    ∀ i, xorKeystream ks i (xorKeystream ks i bs) = bs := by
  induction bs with
  | nil => intro i; rfl
  | cons b rest ih =>
    intro i
    simp only [xorKeystream, ih (i + 1)]
    rw [Nat.xor_assoc, Nat.xor_self, Nat.xor_zero]

theorem xorKeystream_lt_256 (ks : Nat → Nat) (bs : List Nat) (hb : ∀ b ∈ bs, b < 256) :
    ∀ i, ∀ b ∈ xorKeystream ks i bs, b < 256 := by
  induction bs with
  | nil => intro i b hmem; simp [xorKeystream] at hmem
  | cons x rest ih =>
    intro i b hmem
    simp only [xorKeystream, List.mem_cons] at hmem
    rcases hmem with h | h
    · subst h
      have h1 : x < 2 ^ 8 := hb x (List.mem_cons_self ..)
      have h2 : ks i % 256 < 2 ^ 8 := by omega
      have := Nat.xor_lt_two_pow h1 h2
      omega
    · exact ih (fun y hy => hb y (List.mem_cons_of_mem _ hy)) (i + 1) b h

theorem utf8Encode_lt_256 (s : String) : ∀ b ∈ utf8Encode s, b < 256 := by
  intro b hb
  unfold utf8Encode at hb
  rcases List.mem_flatMap.mp hb with ⟨c, _, hc⟩
  exact utf8EncodeChar_lt_256 c b hc

/-- Concrete instantiation of the abstract primitives, used to evaluate the
model on concrete inputs. -/
def trivPrims : CryptoPrims :=
  ⟨fun _ => [1, 2], fun _ => [3], fun _ _ i => i + 7⟩

/-- C1: for every non-empty UTF-8 string `x` and every password, decrypting
the result of `encrypt(x)` with a cipher built from the same password
returns `x`. -/
theorem cipher_roundtrip (P : CryptoPrims) (password x : String) (hx : x ≠ "") :
    (MyCipher.encrypt P (MyCipher.init P (some password)) x).bind
      (fun ct => MyCipher.decrypt P (MyCipher.init P (some password)) ct) = Except.ok x := by
  have hbytes : ∀ b ∈ xorKeystream (P.aesKeystream (P.sha256 (P.sha256 (utf8Encode password)))
      (P.md5 (P.sha256 (utf8Encode password)))) 0 (utf8Encode x), b < 256 :=
    xorKeystream_lt_256 _ _ (utf8Encode_lt_256 x) 0
  simp only [MyCipher.encrypt, MyCipher.decrypt, MyCipher.init, MyCipher.cipherObj,
    Option.map, EaxState.encryptBytes, EaxState.decryptBytes, Except.bind]
  rw [hexDecode_hexEncode _ hbytes]
  dsimp only []
  rw [xorKeystream_involutive, utf8Decode_utf8Encode]

/-- C1 witness: the round-trip theorem applied at a concrete password and
plaintext. -/
theorem cipher_roundtrip_witness :
    ("ab" : String) ≠ "" ∧
    (MyCipher.encrypt trivPrims (MyCipher.init trivPrims (some "pw")) "ab").bind
      (fun ct => MyCipher.decrypt trivPrims (MyCipher.init trivPrims (some "pw")) ct) =
      Except.ok "ab" :=
  ⟨by decide, cipher_roundtrip trivPrims "pw" "ab" (by decide)⟩

/-- C7: encryption is deterministic per password.  The cipher object built
by `_cipher` for a cipher constructed from password `p` has key
`SHA-256(SHA-256(p))`, nonce `MD5(SHA-256(p))` and stream position 0 — the
nonce expression does not mention the message — and `encrypt(x)` equals an
explicit function of the password and the plaintext alone, so any two calls
to `encrypt` on ciphers constructed from the same password yield the
identical ciphertext. -/
theorem cipher_key_nonce_deterministic (P : CryptoPrims) (password x : String) :
    (MyCipher.init P (some password)).cipherObj P =
      Except.ok ⟨P.sha256 (P.sha256 (utf8Encode password)),
        P.md5 (P.sha256 (utf8Encode password)), 0⟩ ∧
    MyCipher.encrypt P (MyCipher.init P (some password)) x =
      Except.ok (String.mk (hexEncode (xorKeystream
        (P.aesKeystream (P.sha256 (P.sha256 (utf8Encode password)))
          (P.md5 (P.sha256 (utf8Encode password)))) 0 (utf8Encode x)))) := by
  constructor
  · rfl
  · rfl

/-- C10: with a password set, `decrypt` fails with `DecryptionError` exactly
when the hex-decoded, keystream-XORed bytes are not valid UTF-8; an input
that is not valid hexadecimal instead escapes with `binascii.Error`
(a `ValueError`), which is neither `DecryptionError` nor `PasswordNotSet`. -/
theorem decrypt_error_taxonomy (P : CryptoPrims) (password text : String) :
    (hexDecode text.data = none →
      MyCipher.decrypt P (MyCipher.init P (some password)) text =
        Except.error CipherErr.binasciiError) ∧
    (MyCipher.decrypt P (MyCipher.init P (some password)) text =
        Except.error CipherErr.decryptionError ↔
      ∃ bs, hexDecode text.data = some bs ∧
        utf8Decode (xorKeystream (P.aesKeystream (P.sha256 (P.sha256 (utf8Encode password)))
          (P.md5 (P.sha256 (utf8Encode password)))) 0 bs) = none) ∧
    CipherErr.binasciiError ≠ CipherErr.decryptionError ∧
    CipherErr.binasciiError ≠ CipherErr.passwordNotSet := by
  refine ⟨?hhex, ?hiff, by decide, by decide⟩
  case hhex =>
    intro hnone
    simp only [MyCipher.decrypt, MyCipher.init, MyCipher.cipherObj, Option.map, hnone]
  case hiff =>
    simp only [MyCipher.decrypt, MyCipher.init, MyCipher.cipherObj, Option.map,
      EaxState.decryptBytes, EaxState.encryptBytes]
    cases hdec : hexDecode text.data with
    | none => simp
    | some bs =>
      dsimp only []
      cases hutf : utf8Decode (xorKeystream (P.aesKeystream (P.sha256 (P.sha256 (utf8Encode password)))
          (P.md5 (P.sha256 (utf8Encode password)))) 0 bs) with
      | none => simp [hutf]
      | some s => simp [hutf]

/-- C10 witness: a concrete non-hex input fails with the `binascii` error,
and a concrete valid-hex input whose decrypted bytes are invalid UTF-8 fails
with `DecryptionError`. -/
theorem decrypt_error_taxonomy_witness :
    MyCipher.decrypt trivPrims (MyCipher.init trivPrims (some "pw")) "zz" =
      Except.error CipherErr.binasciiError :=
  (decrypt_error_taxonomy trivPrims "pw" "zz").1 (by decide)

/-! ### `playbook.py`: `PlaybookParameter`, marker substitution, `Playbook.exec`

Header/body/parameter values are JSON-compatible data, modelled by `J`.
The external `json.dumps`/`json.loads` pair is abstract (`dumps`/`loads`
parameters); the repository's own logic — the `__post_init__` method check,
the `re.sub`-based substitution passes, the `while` loops, and the dispatch
in `exec` — is modelled concretely.  Each `while '{' in path: path = re.sub(...)`
loop is embedded with fuel; `none` means no amount of fuel suffices. -/

/-- JSON-compatible values (floats excluded from the model). -/
inductive J
  | null
  | bool (b : Bool)
  | num (n : Int)
  | str (s : String)
  | arr (xs : List J)
  | obj (m : List (String × J))

/-- `PlaybookParameter` dataclass fields. -/
structure PlaybookParameter where
  method : String
  path : String
  name : String
  overview : String
  header : J
  body : J
  parameter : J

/-- `InvalidMethod`, raised by `__post_init__`. -/
inductive InitErr
  | invalidMethod
  deriving DecidableEq

/-- Construction of a `PlaybookParameter`, i.e. the dataclass constructor
followed by `__post_init__`: the method must be exactly `get` or `post`
(type checks are enforced by the Lean types). -/
def PlaybookParameter.make (method path name overview : String)
    (header body parameter : J) : Except InitErr PlaybookParameter :=
  if method = "get" ∨ method = "post" then
    .ok ⟨method, path, name, overview, header, body, parameter⟩
  else
    .error .invalidMethod

/-- Errors of `PlaybookParameter.replace`: `KeyError` carrying the missing
key, or a `json.loads` failure. -/
inductive ReplErr
  | keyError (k : String)
  | jsonError
  deriving DecidableEq

/-- Match of the regex `o([^oc]+?)c` at the start of `xs` (the char after an
opening marker char): the marker name (nonempty, free of marker chars) and
the text after the closing char, or `none` when no match starts here. -/
def markerSplit (o c : Char) (xs : List Char) : Option (List Char × List Char) :=
  match xs.dropWhile (fun y => !(y == o) && !(y == c)) with
  | y :: rest =>
    if y = c ∧ xs.takeWhile (fun y => !(y == o) && !(y == c)) ≠ [] then
      some (xs.takeWhile (fun y => !(y == o) && !(y == c)), rest)
    else none
  | [] => none

theorem markerSplit_length (o c : Char) (xs : List Char) (kr : List Char × List Char)
    (h : markerSplit o c xs = some kr) : kr.2.length < xs.length := by
  unfold markerSplit at h
  split at h
  case h_1 y rest heq =>
    split at h
    · cases h
      have h1 : (xs.dropWhile (fun y => !(y == o) && !(y == c))).length ≤ xs.length :=
        List.Sublist.length_le (List.dropWhile_sublist _)
    

      rw [heq] at h1
      simp at h1
      simp
      omega
    · simp at h
  case h_2 => simp at h

/-- One `re.sub(r'o([^oc]+?)c', repl, s)` pass: replace every
non-overlapping marker left to right (replacements are not rescanned in the
same pass); the first marker whose name is missing from the table raises
`KeyError` with that name. -/
def substOnce (tbl : List (String × String)) (o c : Char) : List Char → Except String (List Char)
  | [] => .ok []
  | x :: xs =>
    if x = o then
      match _h : markerSplit o c xs with
      | some kr =>
        match tbl.lookup (String.mk kr.1) with
        | some v => (substOnce tbl o c kr.2).map (fun r => v.data ++ r)
        | none => .error (String.mk kr.1)
      | none => (substOnce tbl o c xs).map (fun r => x :: r)
    else (substOnce tbl o c xs).map (fun r => x :: r)
termination_by l => l.length
decreasing_by
  · have := markerSplit_length o c xs kr _h
    simp only [List.length_cons]
    omega
  · simp only [List.length_cons]
    omega
  · simp only [List.length_cons]
    omega

/-- The `while o in s: s = re.sub(...)` loop, with fuel: `none` means the
loop does not finish within the given fuel (and, for every divergent input,
for any fuel). -/
def replaceLoop (tbl : List (String × String)) (o c : Char) (fuel : Nat) (s : List Char) :
    Option (Except String (List Char)) :=
  if o ∈ s then
    match fuel with
    | 0 => none
    | fuel' + 1 =>
      match substOnce tbl o c s with
      | .error k => some (.error k)
      | .ok s2 => replaceLoop tbl o c fuel' s2
  else some (.ok s)

/-- `PlaybookParameter.replace`: substitute `{...}` markers in `path` and
`<...>` markers in the serialized `header`, `body` and `parameter`, then
deserialize the three; returns a new object, the original is not mutated. -/
def PlaybookParameter.replace (dumps : J → String) (loads : String → Option J)
    (tbl : List (String × String)) (fuel : Nat) (t : PlaybookParameter) :
    Option (Except ReplErr PlaybookParameter) :=
  match replaceLoop tbl '{' '}' fuel t.path.data with
  | none => none
  | some (.error k) => some (.error (.keyError k))
  | some (.ok path2) =>
  match replaceLoop tbl '<' '>' fuel (dumps t.header).data with
  | none => none
  | some (.error k) => some (.error (.keyError k))
  | some (.ok hdr2) =>
  match replaceLoop tbl '<' '>' fuel (dumps t.body).data with
  | none => none
  | some (.error k) => some (.error (.keyError k))
  | some (.ok body2) =>
  match replaceLoop tbl '<' '>' fuel (dumps t.parameter).data with
  | none => none
  | some (.error k) => some (.error (.keyError k))
  | some (.ok par2) =>
  match loads (String.mk hdr2), loads (String.mk body2), loads (String.mk par2) with
  | some hj, some bj, some pj =>
    some (.ok ⟨t.method, String.mk path2, t.name, t.overview, hj, bj, pj⟩)
  | _, _, _ => some (.error .jsonError)

/-- The one HTTP call `Playbook.exec` performs through `requests`. -/
inductive HttpCall
  | get (url : String) (header : J) (params : J)
  | post (url : String) (header : J) (body : J)

/-- Errors of `Playbook.exec` before any HTTP activity: a `replace` failure
or the final `ValueError` branch for a method that is neither `get` nor
`post`. -/
inductive ExecErr
  | replErr (e : ReplErr)
  | invalidMethodValue (m : String)
  deriving DecidableEq

/-- `Playbook.exec`: resolve the playbook against the table, then dispatch
one `requests.get`/`requests.post` call.  The external transport is the
`httpExec` parameter; the returned list records every call handed to it. -/
def Playbook.exec {ρ : Type} (httpExec : HttpCall → ρ) (dumps : J → String)
    (loads : String → Option J) (tbl : List (String × String)) (fuel : Nat)
    (t : PlaybookParameter) : Option (Except ExecErr ρ × List HttpCall) :=
  match PlaybookParameter.replace dumps loads tbl fuel t with
  | none => none
  | some (.error e) => some (.error (.replErr e), [])
  | some (.ok p) =>
    if p.method = "get" then
      some (.ok (httpExec (.get p.path p.header p.parameter)), [.get p.path p.header p.parameter])
    else if p.method = "post" then
      some (.ok (httpExec (.post p.path p.header p.body)), [.post p.path p.header p.body])
    else
      some (.error (.invalidMethodValue p.method), [])

theorem replaceLoop_no_marker (tbl : List (String × String)) (o c : Char) (fuel : Nat)
    (s : List Char) (h : o ∉ s) : replaceLoop tbl o c fuel s = some (.ok s) := by
  unfold replaceLoop
  rw [if_neg h]

theorem replaceLoop_zero_mem (tbl : List (String × String)) (o c : Char) (s : List Char)
    (h : o ∈ s) : replaceLoop tbl o c 0 s = none := by
  unfold replaceLoop
  rw [if_pos h]

theorem replaceLoop_succ_mem (tbl : List (String × String)) (o c : Char) (fuel : Nat)
    (s : List Char) (h : o ∈ s) :
    replaceLoop tbl o c (fuel + 1) s =
      match substOnce tbl o c s with
      | .error k => some (.error k)
      | .ok s2 => replaceLoop tbl o c fuel s2 := by
  conv_lhs => rw [replaceLoop]
  rw [if_pos h]

theorem substOnce_nil (tbl : List (String × String)) (o c : Char) :
    substOnce tbl o c [] = .ok [] := by
  rw [substOnce.eq_def]

theorem substOnce_cons_other (tbl : List (String × String)) (o c x : Char)
    (xs : List Char) (h : x ≠ o) :
    substOnce tbl o c (x :: xs) = (substOnce tbl o c xs).map (fun r => x :: r) := by
  conv_lhs => rw [substOnce.eq_def]
  dsimp only []
  rw [if_neg h]

theorem substOnce_marker_found (tbl : List (String × String)) (o c : Char)
    (xs : List Char) (kr : List Char × List Char) (v : String)
    (hs : markerSplit o c xs = some kr) (hv : tbl.lookup (String.mk kr.1) = some v) :
    substOnce tbl o c (o :: xs) = (substOnce tbl o c kr.2).map (fun r => v.data ++ r) := by
  conv_lhs => rw [substOnce.eq_def]
  dsimp only []
  rw [if_pos rfl]
  split
  case h_1 kr2 heq =>
    rw [hs] at heq
    injection heq with h2
    subst h2
    simp only [hv]
  case h_2 heq =>
    rw [hs] at heq
    cases heq

theorem substOnce_marker_missing (tbl : List (String × String)) (o c : Char)
    (xs : List Char) (kr : List Char × List Char)
    (hs : markerSplit o c xs = some kr) (hv : tbl.lookup (String.mk kr.1) = none) :
    substOnce tbl o c (o :: xs) = .error (String.mk kr.1) := by
  conv_lhs => rw [substOnce.eq_def]
  dsimp only []
  rw [if_pos rfl]
  split
  case h_1 kr2 heq =>
    rw [hs] at heq
    injection heq with h2
    subst h2
    simp only [hv]
  case h_2 heq =>
    rw [hs] at heq
    cases heq

theorem substOnce_marker_nosplit (tbl : List (String × String)) (o c : Char)
    (xs : List Char) (hs : markerSplit o c xs = none) :
    substOnce tbl o c (o :: xs) = (substOnce tbl o c xs).map (fun r => o :: r) := by
  conv_lhs => rw [substOnce.eq_def]
  dsimp only []
  rw [if_pos rfl]
  split
  case h_1 kr2 heq =>
    rw [hs] at heq
    cases heq
  case h_2 heq => rfl

theorem takeWhile_append_of_all {α : Type} {p : α → Bool} (k : List α) (z : α)
    (rest : List α) (hk : ∀ y ∈ k, p y = true) (hz : p z = false) :
    (k ++ z :: rest).takeWhile p = k ∧ (k ++ z :: rest).dropWhile p = z :: rest := by
  induction k with
  | nil =>
    simp only [List.nil_append, List.takeWhile_cons, List.dropWhile_cons, hz]
    exact ⟨rfl, rfl⟩
  | cons a as ih =>
    have ha : p a = true := hk a (List.mem_cons_self ..)
    obtain ⟨iht, ihd⟩ := ih (fun y hy => hk y (List.mem_cons_of_mem _ hy))
    simp only [List.cons_append, List.takeWhile_cons, List.dropWhile_cons, ha, iht, ihd]
    exact ⟨rfl, rfl⟩

theorem markerSplit_marker (o c : Char) (k rest : List Char) (hk : k ≠ [])
    (hchars : ∀ y ∈ k, y ≠ o ∧ y ≠ c) :
    markerSplit o c (k ++ c :: rest) = some (k, rest) := by
  have hall : ∀ y ∈ k, (!(y == o) && !(y == c)) = true := by
    intro y hy
    have h := hchars y hy
    simp [h.1, h.2]
  have hc : (!((c : Char) == o) && !(c == c)) = false := by simp
  obtain ⟨ht, hd⟩ := takeWhile_append_of_all k c rest hall hc
  unfold markerSplit
  rw [hd, ht]
  dsimp only []
  rw [if_pos ⟨rfl, hk⟩]

theorem substOnce_append_no_o (tbl : List (String × String)) (o c : Char)
    (pre s : List Char) (hpre : ∀ y ∈ pre, y ≠ o) :
    substOnce tbl o c (pre ++ s) = (substOnce tbl o c s).map (fun r => pre ++ r) := by
  induction pre with
  | nil =>
    cases h : substOnce tbl o c s <;> simp [Except.map, h]
  | cons x pre ih =>
    have hx : x ≠ o := hpre x (List.mem_cons_self ..)
    rw [List.cons_append, substOnce_cons_other tbl o c x _ hx,
      ih (fun y hy => hpre y (List.mem_cons_of_mem _ hy))]
    cases h : substOnce tbl o c s <;> simp [Except.map]

/-- Concrete serialization pair used to instantiate the abstract
`json.dumps`/`json.loads` parameters on concrete inputs. -/
def dumps0 : J → String := fun _ => "j"

/-- Concrete deserialization returning the empty object. -/
def loads0 : String → Option J := fun _ => some (J.obj [])

unseal substOnce in
/-- C2: resolution is recursive through the value table: with table
`{a: "\x7bb\x7d", b: "final"}` and path `"\x7ba\x7d"`, `replace` returns a
playbook whose path is `"final"` (two substitution rounds suffice, and the
loop then stops because no marker characters remain). -/
theorem resolve_recursive (dumps : J → String) (loads : String → Option J)
    (h1 : '<' ∉ (dumps (J.obj [])).data)
    (h2 : loads (dumps (J.obj [])) = some (J.obj [])) :
    PlaybookParameter.replace dumps loads [("a", "{b}"), ("b", "final")] 2
      ⟨"get", "{a}", "", "", J.obj [], J.obj [], J.obj []⟩ =
      some (.ok ⟨"get", "final", "", "", J.obj [], J.obj [], J.obj []⟩) := by
  have hp : replaceLoop [("a", "{b}"), ("b", "final")] '{' '}' 2 ("{a}" : String).data =
      some (.ok ("final" : String).data) := by rfl
  unfold PlaybookParameter.replace
  dsimp only []
  rw [hp]
  dsimp only []
  rw [replaceLoop_no_marker _ _ _ _ _ h1]
  dsimp only []
  have h2a : loads (String.mk (dumps (J.obj [])).data) = some (J.obj []) := h2
  rw [h2a]

/-- C2 witness: the recursive-resolution theorem applied to the concrete
serialization pair. -/
theorem resolve_recursive_witness :
    '<' ∉ (dumps0 (J.obj [])).data ∧
    loads0 (dumps0 (J.obj [])) = some (J.obj []) ∧
    PlaybookParameter.replace dumps0 loads0 [("a", "{b}"), ("b", "final")] 2
      ⟨"get", "{a}", "", "", J.obj [], J.obj [], J.obj []⟩ =
      some (.ok ⟨"get", "final", "", "", J.obj [], J.obj [], J.obj []⟩) :=
  ⟨by decide, rfl, resolve_recursive dumps0 loads0 (by decide) rfl⟩

/-- C4: once no marker characters remain (no brace in the path, no angle
bracket in the serialized header/body/parameter), `replace` returns a
playbook equal to the original, for every table and every fuel, provided the
serialization round-trips on the three structured fields (which
`json.loads`/`json.dumps` do). -/
theorem resolve_idempotent (dumps : J → String) (loads : String → Option J)
    (tbl : List (String × String)) (fuel : Nat) (t : PlaybookParameter)
    (hp : '{' ∉ t.path.data)
    (hh : '<' ∉ (dumps t.header).data)
    (hb : '<' ∉ (dumps t.body).data)
    (hq : '<' ∉ (dumps t.parameter).data)
    (lh : loads (dumps t.header) = some t.header)
    (lb : loads (dumps t.body) = some t.body)
    (lq : loads (dumps t.parameter) = some t.parameter) :
    PlaybookParameter.replace dumps loads tbl fuel t = some (.ok t) := by
  unfold PlaybookParameter.replace
  rw [replaceLoop_no_marker _ _ _ _ _ hp, replaceLoop_no_marker _ _ _ _ _ hh,
    replaceLoop_no_marker _ _ _ _ _ hb, replaceLoop_no_marker _ _ _ _ _ hq]
  dsimp only []
  have lh2 : loads (String.mk (dumps t.header).data) = some t.header := lh
  have lb2 : loads (String.mk (dumps t.body).data) = some t.body := lb
  have lq2 : loads (String.mk (dumps t.parameter).data) = some t.parameter := lq
  rw [lh2, lb2, lq2]

/-- C4 witness: idempotence at a fully resolved concrete playbook. -/
theorem resolve_idempotent_witness :
    '{' ∉ ("p" : String).data ∧
    PlaybookParameter.replace dumps0 loads0 [("k", "v")] 0
      ⟨"get", "p", "", "", J.obj [], J.obj [], J.obj []⟩ =
      some (.ok ⟨"get", "p", "", "", J.obj [], J.obj [], J.obj []⟩) :=
  ⟨by decide,
   resolve_idempotent dumps0 loads0 [("k", "v")] 0
     ⟨"get", "p", "", "", J.obj [], J.obj [], J.obj []⟩
     (by decide) (by decide) (by decide) (by decide) rfl rfl rfl⟩

/-- C9: `PlaybookParameter` construction succeeds exactly for the method
strings `get` and `post` (case-sensitive); every other string is rejected
with `InvalidMethod`. -/
theorem method_validation (method path name overview : String)
    (header body parameter : J) :
    ((∃ t, PlaybookParameter.make method path name overview header body parameter =
        .ok t) ↔ (method = "get" ∨ method = "post")) ∧
    (method ≠ "get" → method ≠ "post" →
      PlaybookParameter.make method path name overview header body parameter =
        .error .invalidMethod) := by
  unfold PlaybookParameter.make
  constructor
  · constructor
    · rintro ⟨t, ht⟩
      by_contra hcon
      rw [if_neg hcon] at ht
      cases ht
    · intro h
      rw [if_pos h]
      exact ⟨_, rfl⟩
  · intro hg hp
    rw [if_neg (by tauto)]

/-- C9 witness: `put` and `GET` are rejected with `InvalidMethod`, `get`
and `post` are accepted. -/
theorem method_validation_witness :
    PlaybookParameter.make "put" "p" "" "" (J.obj []) (J.obj []) (J.obj []) =
      .error .invalidMethod ∧
    PlaybookParameter.make "GET" "p" "" "" (J.obj []) (J.obj []) (J.obj []) =
      .error .invalidMethod ∧
    (∃ t, PlaybookParameter.make "get" "p" "" "" (J.obj []) (J.obj []) (J.obj []) = .ok t) :=
  ⟨(method_validation "put" "p" "" "" (J.obj []) (J.obj []) (J.obj [])).2
      (by decide) (by decide),
   (method_validation "GET" "p" "" "" (J.obj []) (J.obj []) (J.obj [])).2
      (by decide) (by decide),
   (method_validation "get" "p" "" "" (J.obj []) (J.obj []) (J.obj [])).1.mpr
      (Or.inl rfl)⟩

/-- The resolver loop never terminates on this input: no fuel suffices. -/
def replaceDivergesOn (dumps : J → String) (loads : String → Option J)
    (tbl : List (String × String)) (t : PlaybookParameter) : Prop :=
  ∀ fuel, PlaybookParameter.replace dumps loads tbl fuel t = none

theorem replaceLoop_brace_diverges :
    ∀ fuel, replaceLoop [] '{' '}' fuel ('{' :: []) = none := by
  intro fuel
  induction fuel with
  | zero => exact replaceLoop_zero_mem _ _ _ _ (List.mem_cons_self ..)
  | succ f ih =>
    rw [replaceLoop_succ_mem _ _ _ _ _ (List.mem_cons_self ..)]
    have hsub : substOnce [] '{' '}' ('{' :: []) = .ok ('{' :: []) := by
      rw [substOnce_marker_nosplit _ _ _ _ (by rfl), substOnce_nil]
      rfl
    rw [hsub]
    exact ih

/-- C5 counterexample: a template whose path is a single stray opening brace
forms no marker, so with the empty table — which contains no cyclic
references at all — each `re.sub` pass leaves the path unchanged while
braces remain, and `replace` diverges for every fuel. -/
theorem resolve_acyclic_divergence_cex :
    replaceDivergesOn dumps0 loads0 []
      ⟨"get", "\x7b", "", "", J.obj [], J.obj [], J.obj []⟩ := by
  intro fuel
  unfold PlaybookParameter.replace
  dsimp only []
  rw [replaceLoop_brace_diverges fuel]

/-! ### Termination of the substitution loops on well-marked input

`Marked o c s` says every occurrence of a marker character in `s` is part
of a complete marker `o name c` with a nonempty name free of marker
characters.  For tables whose values are well-marked and whose marker
references admit a rank function (i.e. are acyclic), each substitution
round strictly lowers the maximal rank of the markers present, so the
`while` loop terminates (with a result or a `KeyError`). -/

/-- Well-marked text for the marker characters `o`, `c`. -/
inductive Marked (o c : Char) : List Char → Prop
  | nil : Marked o c []
  | chr (x : Char) (s : List Char) : x ≠ o → x ≠ c → Marked o c s → Marked o c (x :: s)
  | mark (k : List Char) (s : List Char) : k ≠ [] → (∀ y ∈ k, y ≠ o ∧ y ≠ c) →
      Marked o c s → Marked o c (o :: (k ++ c :: s))

/-- The marker names in a string, in the order the regex pass finds them. -/
def markersIn (o c : Char) : List Char → List String
  | [] => []
  | x :: xs =>
    if x = o then
      match _h : markerSplit o c xs with
      | some kr => String.mk kr.1 :: markersIn o c kr.2
      | none => markersIn o c xs
    else markersIn o c xs
termination_by l => l.length
decreasing_by
  · have := markerSplit_length o c xs kr _h
    simp only [List.length_cons]
    omega
  · simp only [List.length_cons]
    omega
  · simp only [List.length_cons]
    omega

theorem markersIn_nil (o c : Char) : markersIn o c [] = [] := by
  rw [markersIn.eq_def]

theorem markersIn_cons_other (o c x : Char) (xs : List Char) (h : x ≠ o) :
    markersIn o c (x :: xs) = markersIn o c xs := by
  conv_lhs => rw [markersIn.eq_def]
  dsimp only []
  rw [if_neg h]

theorem markersIn_marker (o c : Char) (xs : List Char) (kr : List Char × List Char)
    (hs : markerSplit o c xs = some kr) :
    markersIn o c (o :: xs) = String.mk kr.1 :: markersIn o c kr.2 := by
  conv_lhs => rw [markersIn.eq_def]
  dsimp only []
  rw [if_pos rfl]
  split
  case h_1 kr2 heq =>
    rw [hs] at heq
    injection heq with h2
    subst h2
    rfl
  case h_2 heq =>
    rw [hs] at heq
    cases heq

theorem Marked.append_marked {o c : Char} {a b : List Char}
    (ha : Marked o c a) (hb : Marked o c b) : Marked o c (a ++ b) := by
  induction ha with
  | nil => exact hb
  | chr x s hxo hxc _ ih => exact Marked.chr x (s ++ b) hxo hxc ih
  | mark k s hk hch _ ih =>
    rw [List.cons_append, List.append_assoc, List.cons_append]
    exact Marked.mark k (s ++ b) hk hch ih

theorem markersIn_append {o c : Char} {a : List Char} (ha : Marked o c a)
    (b : List Char) : markersIn o c (a ++ b) = markersIn o c a ++ markersIn o c b := by
  induction ha with
  | nil => rw [List.nil_append, markersIn_nil, List.nil_append]
  | chr x s hxo _ _ ih =>
    rw [List.cons_append, markersIn_cons_other o c x _ hxo,
      markersIn_cons_other o c x _ hxo, ih]
  | mark k s hk hch _ ih =>
    have h1 : markerSplit o c (k ++ c :: (s ++ b)) = some (k, s ++ b) :=
      markerSplit_marker o c k (s ++ b) hk hch
    have h2 : markerSplit o c (k ++ c :: s) = some (k, s) :=
      markerSplit_marker o c k s hk hch
    rw [List.cons_append, List.append_assoc, List.cons_append,
      markersIn_marker o c _ (k, s ++ b) h1, markersIn_marker o c _ (k, s) h2]
    rw [List.cons_append, ih]

theorem o_mem_markers {o c : Char} {s : List Char} (hs : Marked o c s)
    (ho : o ∈ s) : markersIn o c s ≠ [] := by
  induction hs with
  | nil => cases ho
  | chr x t hxo _ _ ih =>
    rcases List.mem_cons.mp ho with h | h
    · exact absurd h.symm hxo
    · rw [markersIn_cons_other o c x _ hxo]
      exact ih h
  | mark k t hk hch _ _ =>
    rw [markersIn_marker o c _ (k, t) (markerSplit_marker o c k t hk hch)]
    simp

theorem no_o_of_markers_nil {o c : Char} {s : List Char} (hs : Marked o c s)
    (hnil : markersIn o c s = []) : o ∉ s := by
  intro ho
  exact o_mem_markers hs ho hnil

theorem substOnce_marked (tbl : List (String × String)) (o c : Char) (s : List Char)
    (hs : Marked o c s)
    (htbl : ∀ k v, tbl.lookup k = some v → Marked o c v.data) :
    (∃ k, substOnce tbl o c s = .error k) ∨
    (∃ s2, substOnce tbl o c s = .ok s2 ∧ Marked o c s2 ∧
      ∀ k2 ∈ markersIn o c s2, ∃ k ∈ markersIn o c s, ∃ v,
        tbl.lookup k = some v ∧ k2 ∈ markersIn o c v.data) := by
  induction hs with
  | nil =>
    right
    refine ⟨[], substOnce_nil tbl o c, Marked.nil, ?_⟩
    intro k2 hk2
    rw [markersIn_nil] at hk2
    cases hk2
  | chr x t hxo hxc hm ih =>
    rcases ih with ⟨k, hk⟩ | ⟨s2, hok, hm2, hcover⟩
    · left
      refine ⟨k, ?_⟩
      rw [substOnce_cons_other tbl o c x t hxo, hk]
      rfl
    · right
      refine ⟨x :: s2, ?_, Marked.chr x s2 hxo hxc hm2, ?_⟩
      · rw [substOnce_cons_other tbl o c x t hxo, hok]
        rfl
      · intro k2 hk2
        rw [markersIn_cons_other o c x s2 hxo] at hk2
        obtain ⟨k, hkmem, hv⟩ := hcover k2 hk2
        refine ⟨k, ?_, hv⟩
        rw [markersIn_cons_other o c x t hxo]
        exact hkmem
  | mark k t hk hch hm ih =>
    have hsplit : markerSplit o c (k ++ c :: t) = some (k, t) :=
      markerSplit_marker o c k t hk hch
    cases hlook : tbl.lookup (String.mk k) with
    | none =>
      left
      exact ⟨String.mk k, substOnce_marker_missing tbl o c _ (k, t) hsplit hlook⟩
    | some v =>
      rcases ih with ⟨k2, hk2⟩ | ⟨s2, hok, hm2, hcover⟩
      · left
        refine ⟨k2, ?_⟩
        rw [substOnce_marker_found tbl o c _ (k, t) v hsplit hlook, hk2]
        rfl
      · right
        refine ⟨v.data ++ s2, ?_, Marked.append_marked (htbl _ _ hlook) hm2, ?_⟩
        · rw [substOnce_marker_found tbl o c _ (k, t) v hsplit hlook, hok]
          rfl
        · intro k2 hk2
          rw [markersIn_append (htbl _ _ hlook) s2] at hk2
          rw [markersIn_marker o c _ (k, t) hsplit]
          rcases List.mem_append.mp hk2 with h | h
          · exact ⟨String.mk k, List.mem_cons_self .., v, hlook, h⟩
          · obtain ⟨kk, hkm, hvv⟩ := hcover k2 h
            exact ⟨kk, List.mem_cons_of_mem _ hkm, hvv⟩

theorem replaceLoop_terminates (tbl : List (String × String)) (o c : Char)
    (rank : String → Nat)
    (htbl : ∀ k v, tbl.lookup k = some v → Marked o c v.data ∧
      ∀ k2 ∈ markersIn o c v.data, rank k2 < rank k) :
    ∀ N s, Marked o c s → (∀ k ∈ markersIn o c s, rank k < N) →
      (replaceLoop tbl o c N s).isSome := by
  intro N
  induction N using Nat.strong_induction_on with
  | _ N ih =>
    intro s hs hrank
    by_cases ho : o ∈ s
    · have hmark : markersIn o c s ≠ [] := o_mem_markers hs ho
      obtain ⟨k0, hk0⟩ : ∃ k0, k0 ∈ markersIn o c s := by
        cases h : markersIn o c s with
        | nil => exact absurd h hmark
        | cons a l => exact ⟨a, List.mem_cons_self ..⟩
      have hN : 0 < N := Nat.lt_of_le_of_lt (Nat.zero_le _) (hrank k0 hk0)
      obtain ⟨N2, rfl⟩ : ∃ m, N = m + 1 := ⟨N - 1, by omega⟩
      rw [replaceLoop_succ_mem tbl o c N2 s ho]
      rcases substOnce_marked tbl o c s hs (fun k v hv => (htbl k v hv).1) with
        ⟨k, hk⟩ | ⟨s2, hok, hm2, hcover⟩
      · rw [hk]
        rfl
      · rw [hok]
        dsimp only []
        apply ih N2 (by omega) s2 hm2
        intro k2 hk2
        obtain ⟨k, hkmem, v, hv, hvm⟩ := hcover k2 hk2
        have h1 := (htbl k v hv).2 k2 hvm
        have h2 := hrank k hkmem
        omega
    · rw [replaceLoop_no_marker tbl o c _ s ho]
      rfl

theorem replaceLoop_mono (tbl : List (String × String)) (o c : Char) :
    ∀ f s, (replaceLoop tbl o c f s).isSome →
      ∀ g, f ≤ g → replaceLoop tbl o c g s = replaceLoop tbl o c f s := by
  intro f
  induction f with
  | zero =>
    intro s hsome g _
    by_cases ho : o ∈ s
    · rw [replaceLoop_zero_mem tbl o c s ho] at hsome
      cases hsome
    · rw [replaceLoop_no_marker tbl o c g s ho, replaceLoop_no_marker tbl o c 0 s ho]
  | succ f ih =>
    intro s hsome g hg
    by_cases ho : o ∈ s
    · obtain ⟨g2, rfl⟩ : ∃ m, g = m + 1 := ⟨g - 1, by omega⟩
      rw [replaceLoop_succ_mem tbl o c f s ho] at hsome
      rw [replaceLoop_succ_mem tbl o c g2 s ho, replaceLoop_succ_mem tbl o c f s ho]
      cases hsub : substOnce tbl o c s with
      | error k => rfl
      | ok s2 =>
        rw [hsub] at hsome
        dsimp only [] at hsome ⊢
        exact ih s2 hsome g2 (by omega)
    · rw [replaceLoop_no_marker tbl o c _ s ho, replaceLoop_no_marker tbl o c _ s ho]

theorem markers_rank_bound (rank : String → Nat) (l : List String) :
    ∀ k ∈ l, rank k < (l.map rank).sum + 1 := by
  intro k hk
  have h1 : rank k ≤ (l.map rank).sum :=
    List.single_le_sum (fun x _ => Nat.zero_le x) (rank k) (List.mem_map_of_mem rank hk)
  omega

theorem marked_of_no_marker {o c : Char} (s : List Char)
    (h : ∀ y ∈ s, y ≠ o ∧ y ≠ c) : Marked o c s := by
  induction s with
  | nil => exact Marked.nil
  | cons x xs ih =>
    exact Marked.chr x xs (h x (List.mem_cons_self ..)).1 (h x (List.mem_cons_self ..)).2
      (ih fun y hy => h y (List.mem_cons_of_mem _ hy))

theorem markersIn_no_marker {o c : Char} (s : List Char) (h : ∀ y ∈ s, y ≠ o) :
    markersIn o c s = [] := by
  induction s with
  | nil => exact markersIn_nil o c
  | cons x xs ih =>
    rw [markersIn_cons_other o c x xs (h x (List.mem_cons_self ..)),
      ih fun y hy => h y (List.mem_cons_of_mem _ hy)]

/-- C5 amended: `replace` terminates (returns a result or a `KeyError`)
whenever every marker character in the path, in the serialized structured
fields and in the table's values belongs to a complete marker, and the
table's marker references admit rank functions (i.e. are acyclic); a stray
marker character, such as a lone opening brace, makes the loop run forever
even with an acyclic table. -/
theorem resolve_terminates_of_wellmarked (dumps : J → String)
    (loads : String → Option J) (tbl : List (String × String))
    (t : PlaybookParameter) (rank1 rank2 : String → Nat)
    (hpath : Marked '{' '}' t.path.data)
    (hh : Marked '<' '>' (dumps t.header).data)
    (hb : Marked '<' '>' (dumps t.body).data)
    (hq : Marked '<' '>' (dumps t.parameter).data)
    (htbl1 : ∀ k v, tbl.lookup k = some v → Marked '{' '}' v.data ∧
      ∀ k2 ∈ markersIn '{' '}' v.data, rank1 k2 < rank1 k)
    (htbl2 : ∀ k v, tbl.lookup k = some v → Marked '<' '>' v.data ∧
      ∀ k2 ∈ markersIn '<' '>' v.data, rank2 k2 < rank2 k) :
    ∃ fuel, (PlaybookParameter.replace dumps loads tbl fuel t).isSome := by
  set N1 := ((markersIn '{' '}' t.path.data).map rank1).sum + 1 with hN1
  set N2 := ((markersIn '<' '>' (dumps t.header).data).map rank2).sum + 1 with hN2
  set N3 := ((markersIn '<' '>' (dumps t.body).data).map rank2).sum + 1 with hN3
  set N4 := ((markersIn '<' '>' (dumps t.parameter).data).map rank2).sum + 1 with hN4
  have h1 : (replaceLoop tbl '{' '}' N1 t.path.data).isSome :=
    replaceLoop_terminates tbl '{' '}' rank1 htbl1 N1 t.path.data hpath
      (markers_rank_bound rank1 _)
  have h2 : (replaceLoop tbl '<' '>' N2 (dumps t.header).data).isSome :=
    replaceLoop_terminates tbl '<' '>' rank2 htbl2 N2 (dumps t.header).data hh
      (markers_rank_bound rank2 _)
  have h3 : (replaceLoop tbl '<' '>' N3 (dumps t.body).data).isSome :=
    replaceLoop_terminates tbl '<' '>' rank2 htbl2 N3 (dumps t.body).data hb
      (markers_rank_bound rank2 _)
  have h4 : (replaceLoop tbl '<' '>' N4 (dumps t.parameter).data).isSome :=
    replaceLoop_terminates tbl '<' '>' rank2 htbl2 N4 (dumps t.parameter).data hq
      (markers_rank_bound rank2 _)
  refine ⟨N1 + N2 + N3 + N4, ?_⟩
  unfold PlaybookParameter.replace
  rw [replaceLoop_mono tbl '{' '}' N1 t.path.data h1 (N1 + N2 + N3 + N4) (by omega)]
  cases hv1 : replaceLoop tbl '{' '}' N1 t.path.data with
  | none =>
    rw [hv1] at h1
    cases h1
  | some r1 =>
    cases r1 with
    | error k => rfl
    | ok p2 =>
      dsimp only []
      rw [replaceLoop_mono tbl '<' '>' N2 (dumps t.header).data h2
        (N1 + N2 + N3 + N4) (by omega)]
      cases hv2 : replaceLoop tbl '<' '>' N2 (dumps t.header).data with
      | none =>
        rw [hv2] at h2
        cases h2
      | some r2 =>
        cases r2 with
        | error k => rfl
        | ok q2 =>
          dsimp only []
          rw [replaceLoop_mono tbl '<' '>' N3 (dumps t.body).data h3
            (N1 + N2 + N3 + N4) (by omega)]
          cases hv3 : replaceLoop tbl '<' '>' N3 (dumps t.body).data with
          | none =>
            rw [hv3] at h3
            cases h3
          | some r3 =>
            cases r3 with
            | error k => rfl
            | ok q3 =>
              dsimp only []
              rw [replaceLoop_mono tbl '<' '>' N4 (dumps t.parameter).data h4
                (N1 + N2 + N3 + N4) (by omega)]
              cases hv4 : replaceLoop tbl '<' '>' N4 (dumps t.parameter).data with
              | none =>
                rw [hv4] at h4
                cases h4
              | some r4 =>
                cases r4 with
                | error k => rfl
                | ok q4 =>
                  dsimp only []
                  split <;> rfl

/-- C5 amended witness: the termination theorem at a concrete well-marked
playbook and acyclic table. -/
theorem resolve_terminates_witness :
    ∃ fuel, (PlaybookParameter.replace dumps0 loads0 [("a", "done")] fuel
      ⟨"get", "{a}", "", "", J.obj [], J.obj [], J.obj []⟩).isSome := by
  apply resolve_terminates_of_wellmarked dumps0 loads0 [("a", "done")]
    ⟨"get", "{a}", "", "", J.obj [], J.obj [], J.obj []⟩ (fun _ => 0) (fun _ => 0)
  · exact Marked.mark ('a' :: []) [] (by decide) (by decide) Marked.nil
  · exact marked_of_no_marker _ (by decide)
  · exact marked_of_no_marker _ (by decide)
  · exact marked_of_no_marker _ (by decide)
  · intro k v h
    simp only [List.lookup] at h
    split at h
    · injection h with h2
      subst h2
      refine ⟨marked_of_no_marker _ (by decide), ?_⟩
      intro k2 hk2
      rw [markersIn_no_marker _ (by decide)] at hk2
      cases hk2
    · cases h
  · intro k v h
    simp only [List.lookup] at h
    split at h
    · injection h with h2
      subst h2
      refine ⟨marked_of_no_marker _ (by decide), ?_⟩
      intro k2 hk2
      rw [markersIn_no_marker _ (by decide)] at hk2
      cases hk2
    · cases h

/-! ### `fictoken.py`: `FicToken.update` -/

/-- Python exception classes arising in `FicToken.update`. -/
inductive PyErr
  | valueError (msg : String)
  | keyError (k : String)
  | typeError
  deriving DecidableEq

/-- Discriminator: is the exception a `ValueError`? -/
def PyErr.isValueErr : PyErr → Bool
  | .valueError _ => true
  | _ => false

/-- The `TOKENID` constant of `fictoken.py`. -/
def TOKENID : String := "X-Subject-Token"

/-- The `EXPIRES` constant of `fictoken.py`. -/
def EXPIRES : String := "expires_at"

/-- Python `j[key]` for a string key: mapping lookup (`KeyError` when the
key is absent); subscripting a list or a string with a string key, or any
non-container, raises `TypeError`. -/
def J.index (j : J) (key : String) : Except PyErr J :=
  match j with
  | .obj m =>
    match m.lookup key with
    | some v => .ok v
    | none => .error (.keyError key)
  | _ => .error .typeError

/-- Python `==` between a JSON value and a string. -/
def jStrEq (x : J) (s : String) : Bool :=
  match x with
  | .str t => t == s
  | _ => false

/-- `needle` is a prefix of the second list. -/
def prefixOf : List Char → List Char → Bool
  | [], _ => true
  | _ :: _, [] => false
  | a :: as, b :: bs => a == b && prefixOf as bs

/-- `needle` occurs as a contiguous substring. -/
def infixOf (needle : List Char) : List Char → Bool
  | [] => prefixOf needle []
  | h :: t => prefixOf needle (h :: t) || infixOf needle t

/-- Python `key in j` for a string key: mapping-key test for dicts, element
test for lists, substring test for strings, `TypeError` otherwise. -/
def J.hasKey (j : J) (key : String) : Except PyErr Bool :=
  match j with
  | .obj m => .ok (m.any (fun kv => kv.1 == key))
  | .arr xs => .ok (xs.any (fun x => jStrEq x key))
  | .str s => .ok (infixOf key.data s.data)
  | _ => .error .typeError

/-- Python dict assignment `d[k] = v`. -/
def setKey (m : List (String × J)) (k : String) (v : J) : List (String × J) :=
  if m.any (fun kv => kv.1 == k) then
    m.map (fun kv => if kv.1 == k then (kv.1, v) else kv)
  else m ++ [(k, v)]

/-- An HTTP response as `FicToken.update` consumes it: the headers and the
parsed JSON body (`response.json()`). -/
structure HttpResponse where
  headers : List (String × String)
  body : J

/-- `FicToken.update`, line by line: check the `X-Subject-Token` header
(`ValueError` when absent); evaluate `body['token']` for the
`'expires_at' not in body['token']` test (`KeyError` when `token` is
absent, `ValueError` when the membership test is negative); then replace
`self._token` with `dict(response.headers)` and copy
`body['token']['expires_at']` into it.  The result is the record after the
call together with the exception raised, if any — the record is replaced
*before* `body['token']['expires_at']` is evaluated, so a `TypeError`
there (non-mapping `token`) strikes after the replacement. -/
def FicToken.update (tok : List (String × J)) (resp : HttpResponse) :
    List (String × J) × Option PyErr :=
  if (resp.headers.lookup TOKENID).isNone then
    (tok, some (.valueError ("\"" ++ TOKENID ++ "\" is not found in response header.")))
  else
    match resp.body.index "token" with
    | .error e => (tok, some e)
    | .ok tokval =>
      match tokval.hasKey EXPIRES with
      | .error e => (tok, some e)
      | .ok b =>
        if b = false then
          (tok, some (.valueError ("\"" ++ EXPIRES ++ "\" is not found in response body.")))
        else
          match tokval.index EXPIRES with
          | .error e => (resp.headers.map (fun kv => (kv.1, J.str kv.2)), some e)
          | .ok v => (setKey (resp.headers.map (fun kv => (kv.1, J.str kv.2))) EXPIRES v, none)

theorem lookup_some_any {β : Type} (m : List (String × β)) (k : String) (v : β)
    (h : m.lookup k = some v) : m.any (fun kv => kv.1 == k) = true := by
  induction m with
  | nil => cases h
  | cons kv es ih =>
    simp only [List.lookup] at h
    simp only [List.any_cons]
    rcases hbe : (k == kv.1) with _ | _
    · rw [hbe] at h
      simp only [Bool.or_eq_true]
      exact Or.inr (ih h)
    · simp only [Bool.or_eq_true]
      left
      have : k = kv.1 := by
        have := hbe
        simp at this
        exact this
      simp [this]

/-- C8 counterexample: with the sentinel record and a response carrying the
`X-Subject-Token` header, (i) a body `{}` without a `token` member fails
with `KeyError`, not a `ValueError` as the claim states (record unchanged
there); and (ii) a body whose `token` member is the string
`"expires_at"` passes the containment check (substring test), replaces the
record with the response headers, and only then fails with `TypeError` —
so on this failure the stored record *has* changed, contradicting "on any
failure the stored record is unchanged". -/
theorem fictoken_update_cex :
    (FicToken.update
        [("X-Subject-Token", J.str "xxxxxxxxxxxxxxxxxxxxxxxxxxxxxxxx"),
         ("expires_at", J.str "2001-01-01T00:00:00.000000Z")]
        ⟨[("X-Subject-Token", "tid")], J.obj []⟩).2 = some (PyErr.keyError "token") ∧
    ((FicToken.update
        [("X-Subject-Token", J.str "xxxxxxxxxxxxxxxxxxxxxxxxxxxxxxxx"),
         ("expires_at", J.str "2001-01-01T00:00:00.000000Z")]
        ⟨[("X-Subject-Token", "tid")], J.obj []⟩).2.map PyErr.isValueErr) = some false ∧
    (FicToken.update
        [("X-Subject-Token", J.str "xxxxxxxxxxxxxxxxxxxxxxxxxxxxxxxx"),
         ("expires_at", J.str "2001-01-01T00:00:00.000000Z")]
        ⟨[("X-Subject-Token", "tid")], J.obj []⟩).1 =
      [("X-Subject-Token", J.str "xxxxxxxxxxxxxxxxxxxxxxxxxxxxxxxx"),
       ("expires_at", J.str "2001-01-01T00:00:00.000000Z")] ∧
    (FicToken.update
        [("X-Subject-Token", J.str "xxxxxxxxxxxxxxxxxxxxxxxxxxxxxxxx"),
         ("expires_at", J.str "2001-01-01T00:00:00.000000Z")]
        ⟨[("X-Subject-Token", "tid")], J.obj [("token", J.str "expires_at")]⟩).2 =
      some PyErr.typeError ∧
    (FicToken.update
        [("X-Subject-Token", J.str "xxxxxxxxxxxxxxxxxxxxxxxxxxxxxxxx"),
         ("expires_at", J.str "2001-01-01T00:00:00.000000Z")]
        ⟨[("X-Subject-Token", "tid")], J.obj [("token", J.str "expires_at")]⟩).1 ≠
      [("X-Subject-Token", J.str "xxxxxxxxxxxxxxxxxxxxxxxxxxxxxxxx"),
       ("expires_at", J.str "2001-01-01T00:00:00.000000Z")] := by
  refine ⟨rfl, rfl, rfl, rfl, ?_⟩
  intro h
  have h2 := congrArg (fun m => List.lookup EXPIRES m) h
  have h3 : (none : Option J) = some (J.str "2001-01-01T00:00:00.000000Z") := h2
  cases h3

/-- C8 amended: for responses whose body is a JSON object, `update` fails
with a `ValueError` when the `X-Subject-Token` header is absent, fails with
a `KeyError` when the body has no `token` member, fails with a `ValueError`
when the `token` member is an object lacking `expires_at` — the stored
record is unchanged in these three cases — and otherwise (a `token` object
containing `expires_at`) replaces the record wholesale with the response
headers plus the expiry, independent of the previous record.  (A
non-object `token` member can instead fail with `TypeError` after the
record has already been replaced by the headers; see the
counterexample.) -/
theorem fictoken_update_spec (tok : List (String × J))
    (hdrs : List (String × String)) (mb : List (String × J)) :
    (hdrs.lookup TOKENID = none →
      FicToken.update tok ⟨hdrs, J.obj mb⟩ =
        (tok, some (.valueError
          ("\"" ++ TOKENID ++ "\" is not found in response header.")))) ∧
    ((hdrs.lookup TOKENID).isSome → mb.lookup "token" = none →
      FicToken.update tok ⟨hdrs, J.obj mb⟩ = (tok, some (.keyError "token"))) ∧
    (∀ tm, (hdrs.lookup TOKENID).isSome → mb.lookup "token" = some (J.obj tm) →
      tm.any (fun kv => kv.1 == EXPIRES) = false →
      FicToken.update tok ⟨hdrs, J.obj mb⟩ =
        (tok, some (.valueError
          ("\"" ++ EXPIRES ++ "\" is not found in response body.")))) ∧
    (∀ tm v, (hdrs.lookup TOKENID).isSome → mb.lookup "token" = some (J.obj tm) →
      tm.lookup EXPIRES = some v →
      FicToken.update tok ⟨hdrs, J.obj mb⟩ =
        (setKey (hdrs.map (fun kv => (kv.1, J.str kv.2))) EXPIRES v, none)) := by
  refine ⟨?ha, ?hb, ?hc, ?hd⟩
  case ha =>
    intro h
    unfold FicToken.update
    rw [h]
    rfl
  case hb =>
    intro hsome hmiss
    obtain ⟨w, hw⟩ := Option.isSome_iff_exists.mp hsome
    unfold FicToken.update
    rw [hw]
    dsimp only [Option.isNone]
    rw [if_neg (by simp)]
    dsimp only [J.index, HttpResponse.body]
    rw [hmiss]
  case hc =>
    intro tm hsome hlook hany
    obtain ⟨w, hw⟩ := Option.isSome_iff_exists.mp hsome
    unfold FicToken.update
    rw [hw]
    dsimp only [Option.isNone]
    rw [if_neg (by simp)]
    dsimp only [J.index, HttpResponse.body]
    rw [hlook]
    dsimp only [J.hasKey]
    rw [hany]
    rfl
  case hd =>
    intro tm v hsome hlook hexp
    obtain ⟨w, hw⟩ := Option.isSome_iff_exists.mp hsome
    unfold FicToken.update
    rw [hw]
    dsimp only [Option.isNone]
    rw [if_neg (by simp)]
    dsimp only [J.index, HttpResponse.body]
    rw [hlook]
    dsimp only [J.hasKey]
    rw [lookup_some_any tm EXPIRES v hexp]
    rw [if_neg (by simp)]
    rw [hexp]

/-- C8 witness: the amended theorem at a concrete response, showing the
wholesale replacement. -/
theorem fictoken_update_spec_witness :
    FicToken.update
      [("X-Subject-Token", J.str "old"), ("expires_at", J.str "2001-01-01T00:00:00.000000Z")]
      ⟨[("X-Subject-Token", "tid")],
       J.obj [("token", J.obj [("expires_at", J.str "2030-01-01T00:00:00.000000Z")])]⟩ =
      (setKey ([("X-Subject-Token", "tid")].map (fun kv => (kv.1, J.str kv.2)))
        EXPIRES (J.str "2030-01-01T00:00:00.000000Z"), none) :=
  (fictoken_update_spec
      [("X-Subject-Token", J.str "old"), ("expires_at", J.str "2001-01-01T00:00:00.000000Z")]
      [("X-Subject-Token", "tid")]
      [("token", J.obj [("expires_at", J.str "2030-01-01T00:00:00.000000Z")])]).2.2.2
    [("expires_at", J.str "2030-01-01T00:00:00.000000Z")]
    (J.str "2030-01-01T00:00:00.000000Z") rfl rfl rfl

theorem substOnce_resolved_prefix (tbl : List (String × String)) (o c : Char)
    (pre : List Char) (hm : Marked o c pre)
    (hpres : ∀ km ∈ markersIn o c pre, ∃ v, tbl.lookup km = some v) :
    ∀ s, ∃ pre2, substOnce tbl o c (pre ++ s) =
      (substOnce tbl o c s).map (fun r => pre2 ++ r) := by
  induction hm with
  | nil =>
    intro s
    refine ⟨[], ?_⟩
    cases h : substOnce tbl o c s <;> simp [h, Except.map]
  | chr x t hxo hxc hmt ih =>
    intro s
    have hpres2 : ∀ km ∈ markersIn o c t, ∃ v, tbl.lookup km = some v := by
      intro km hkm
      apply hpres
      rw [markersIn_cons_other o c x t hxo]
      exact hkm
    obtain ⟨pre2, hpre2⟩ := ih hpres2 s
    refine ⟨x :: pre2, ?_⟩
    rw [List.cons_append, substOnce_cons_other tbl o c x _ hxo, hpre2]
    cases h : substOnce tbl o c s <;> simp [Except.map]
  | mark k t hk hch hmt ih =>
    intro s
    have hmk : markersIn o c (o :: (k ++ c :: t)) = String.mk k :: markersIn o c t :=
      markersIn_marker o c _ (k, t) (markerSplit_marker o c k t hk hch)
    obtain ⟨v, hv⟩ := hpres (String.mk k) (by rw [hmk]; exact List.mem_cons_self ..)
    have hpres2 : ∀ km ∈ markersIn o c t, ∃ w, tbl.lookup km = some w := by
      intro km hkm
      apply hpres
      rw [hmk]
      exact List.mem_cons_of_mem _ hkm
    obtain ⟨pre2, hpre2⟩ := ih hpres2 s
    refine ⟨v.data ++ pre2, ?_⟩
    have hassoc : (o :: (k ++ c :: t)) ++ s = o :: (k ++ c :: (t ++ s)) := by
      simp [List.append_assoc]
    rw [hassoc,
      substOnce_marker_found tbl o c _ (k, t ++ s) v
        (markerSplit_marker o c k (t ++ s) hk hch) hv,
      hpre2]
    cases h : substOnce tbl o c s <;> simp [Except.map]

/-- C3: when the path's first unresolvable marker is `\x7bk\x7d` — every
marker before it resolves, and the table lacks `k` — `replace` fails with a
`KeyError` naming exactly `k`, and `Playbook.exec` then fails with the same
error without handing any call to the HTTP transport. -/
theorem resolve_missing_key {ρ : Type} (httpExec : HttpCall → ρ)
    (dumps : J → String) (loads : String → Option J)
    (tbl : List (String × String)) (fuel : Nat) (t : PlaybookParameter)
    (pre k suf : List Char)
    (hpath : t.path.data = pre ++ '{' :: (k ++ '}' :: suf))
    (hpre : Marked '{' '}' pre)
    (hpres : ∀ km ∈ markersIn '{' '}' pre, ∃ v, tbl.lookup km = some v)
    (hk : k ≠ []) (hkchars : ∀ y ∈ k, y ≠ '{' ∧ y ≠ '}')
    (hmiss : tbl.lookup (String.mk k) = none)
    (hfuel : 0 < fuel) :
    PlaybookParameter.replace dumps loads tbl fuel t =
      some (.error (.keyError (String.mk k))) ∧
    Playbook.exec httpExec dumps loads tbl fuel t =
      some (.error (.replErr (.keyError (String.mk k))), []) := by
  have hmem : '{' ∈ t.path.data := by
    rw [hpath]
    exact List.mem_append_right _ (List.mem_cons_self ..)
  have hsub : substOnce tbl '{' '}' t.path.data = .error (String.mk k) := by
    obtain ⟨pre2, hpre2⟩ := substOnce_resolved_prefix tbl '{' '}' pre hpre hpres
      ('{' :: (k ++ '}' :: suf))
    rw [hpath, hpre2,
      substOnce_marker_missing tbl '{' '}' _ (k, suf)
        (markerSplit_marker _ _ _ _ hk hkchars) hmiss]
    rfl
  obtain ⟨fuel2, rfl⟩ : ∃ f, fuel = f + 1 := ⟨fuel - 1, by omega⟩
  have hloop : replaceLoop tbl '{' '}' (fuel2 + 1) t.path.data =
      some (.error (String.mk k)) := by
    rw [replaceLoop_succ_mem _ _ _ _ _ hmem, hsub]
  have hrepl : PlaybookParameter.replace dumps loads tbl (fuel2 + 1) t =
      some (.error (.keyError (String.mk k))) := by
    unfold PlaybookParameter.replace
    rw [hloop]
  refine ⟨hrepl, ?_⟩
  unfold Playbook.exec
  rw [hrepl]

/-- C3 witness: the missing-key theorem at a concrete playbook (a resolved
marker precedes the missing one), table and transport — the error names the
missing key and the transport receives no call. -/
theorem resolve_missing_key_witness :
    PlaybookParameter.replace dumps0 loads0 [("u", "host")] 1
      ⟨"get", "{u}{x}", "", "", J.obj [], J.obj [], J.obj []⟩ =
      some (.error (.keyError "x")) ∧
    Playbook.exec (fun _ => (0 : Nat)) dumps0 loads0 [("u", "host")] 1
      ⟨"get", "{u}{x}", "", "", J.obj [], J.obj [], J.obj []⟩ =
      some (.error (.replErr (.keyError "x")), []) :=
  resolve_missing_key (fun _ => (0 : Nat)) dumps0 loads0 [("u", "host")] 1
    ⟨"get", "{u}{x}", "", "", J.obj [], J.obj [], J.obj []⟩
    ('{' :: 'u' :: '}' :: []) ('x' :: []) []
    (by rfl)
    (Marked.mark ('u' :: []) [] (by decide) (by decide) Marked.nil)
    (by
      intro km hkm
      have hkm2 : km ∈ markersIn '{' '}' ('{' :: (('u' :: []) ++ '}' :: [])) := hkm
      rw [markersIn_marker '{' '}' _ ('u' :: [], [])
        (markerSplit_marker '{' '}' ('u' :: []) [] (by decide) (by decide)),
        markersIn_nil] at hkm2
      rcases List.mem_cons.mp hkm2 with h | h
      · exact ⟨"host", by rw [h]; rfl⟩
      · cases h)
    (by decide) (by decide) (by rfl) (by decide)
